import Mathlib

/-!
Verification of the pagination and streaming-merge engine of `genshin/paginator.py`.

The Python source is shallowly embedded: the mutable paginator object becomes an
explicit `PagState` threaded through the operations, the async fetch layer becomes
a pure oracle `Int → Except PyExc (List α)` (a fetch either returns a page or
raises an exception value), and the async-generator pipeline
(`_iter` flattened through `aislice`) becomes a fuel-indexed recursive function
returning `none` when the fuel is insufficient to reach exhaustion.
-/

namespace Genshin

/-- A Python exception value.  `exception msg` is the built-in generic
`Exception(msg)` (the paginator raises `Exception("No more pages")`);
`other cls msg` is any other exception class (identified by name) that the
fetch layer may raise. -/
inductive PyExc where
  | exception : String → PyExc
  | other : String → String → PyExc
deriving DecidableEq

/-- The mutable state of an `AuthkeyPaginator` (`IDPagintor` fields `limit` and
`end_id`, plus the `authkey` added by the subclass).  `end_id = none` encodes the
Python `self.end_id is None` exhausted sentinel; a fresh paginator has
`end_id = some 0` (`__init__` default `end_id=0`). -/
structure PagState where
  limit : Option Nat
  end_id : Option Int
  authkey : Option String
deriving DecidableEq

/-- The class constant `IDPagintor.page_size = 20`. -/
def page_size : Nat := 20

variable {α : Type}

/-- The cursor update performed by `IDPagintor.next_page` after a successful
fetch: a page shorter than `page_size` sets the exhausted sentinel
(`self.end_id = None`), otherwise the cursor advances to the id of the last
item of the page (`self.end_id = data[-1].id`). -/
def pageNextEnd (ident : α → Int) (data : List α) : Option Int :=
  if h : data.length < page_size then none
  else
    some (ident (data.getLast (fun hnil => by
      rw [hnil] at h
      exact h (by simp [page_size]))))

/-- `IDPagintor.next_page`: on an exhausted paginator raise
`Exception("No more pages")` without fetching; otherwise fetch at the current
cursor, propagate a fetch failure unmodified, and on success return the page
with the cursor updated by `pageNextEnd`.  The returned state is the paginator
state after the call (unchanged when an exception is raised, because the raise
happens before any mutation). -/
def next_page (fetch : Int → Except PyExc (List α)) (ident : α → Int) (st : PagState) :
    Except PyExc (List α) × PagState :=
  match st.end_id with
  | none => (.error (.exception ("No more pages")), st)
  | some e =>
    match fetch e with
    | .error err => (.error err, st)
    | .ok data => (.ok data, { st with end_id := pageNextEnd ident data })

/-- Prepend a fully-yielded page to the outcome of the rest of the iteration
(`for i in page: yield i` followed by the continuation of the loop). -/
def contPage (data : List α) :
    Option (Except PyExc (List α) × PagState) → Option (Except PyExc (List α) × PagState)
  | none => none
  | some (.error e, st2) => some (.error e, st2)
  | some (.ok rest, st2) => some (.ok (data ++ rest), st2)

/-- The iteration pipeline `aislice(self._iter(), stop)` of `IDPagintor`,
materialized with fuel (`none` = the fuel ran out before the loop ended).
`rem` is the number of items `aislice` still allows (`none` when the stop value
is falsy — `None` or `0` — in which case the slice never stops on its own):
`aislice` returns once the allowance reaches `0`; `_iter` stops when the
paginator is exhausted, and otherwise takes `next_page` and yields its items,
stopping mid-page when the allowance runs out (no further fetch is issued). -/
def runIterSt (fetch : Int → Except PyExc (List α)) (ident : α → Int) :
    Nat → Option Nat → PagState → Option (Except PyExc (List α) × PagState)
  | 0, rem, st =>
    if rem = some 0 then some (.ok ([]), st)
    else if st.end_id = none then some (.ok ([]), st)
    else none
  | fuel + 1, rem, st =>
    if rem = some 0 then some (.ok ([]), st)
    else if st.end_id = none then some (.ok ([]), st)
    else
      match next_page fetch ident st with
      | (.error e, st1) => some (.error e, st1)
      | (.ok data, st1) =>
        match rem with
        | none => contPage data (runIterSt fetch ident fuel none st1)
        | some r =>
          if r ≤ data.length then some (.ok (data.take r), st1)
          else contPage data (runIterSt fetch ident fuel (some (r - data.length)) st1)

/-- The truthiness conversion in `aislice`'s `if stop and i >= stop:` guard:
a stop value of `None` or `0` is falsy, so the slice never stops on its own. -/
def stopOfLimit : Option Nat → Option Nat
  | none => none
  | some 0 => none
  | some (n + 1) => some (n + 1)

/-- `IDPagintor.flatten` (= `[item async for item in self]`, where `__aiter__`
is `aislice(self._iter(), self.limit)`), returning only the produced value. -/
def flattenP (fetch : Int → Except PyExc (List α)) (ident : α → Int) (fuel : Nat)
    (st : PagState) : Option (Except PyExc (List α)) :=
  (runIterSt fetch ident fuel (stopOfLimit st.limit) st).map (fun p => p.1)

/-- `aislice` applied to an already-materialized sequence: with a falsy stop
(`None` or `0`) every item is yielded, otherwise the first `stop` items. -/
def aisliceList (l : List α) : Option Nat → List α
  | none => l
  | some 0 => l
  | some (n + 1) => l.take (n + 1)

/-- The Python slice `l[:limit]`: everything for `limit = None`, otherwise the
first `limit` items. -/
def pySlice (l : List α) : Option Nat → List α
  | none => l
  | some n => l.take n

/-- Among the current heads of the given sequences, the position and value of
the one with the minimal key, ties broken in favour of the earlier sequence;
`none` when every sequence is empty.  One selection step of the k-way merge. -/
def pickMin (key : α → Int) : List (List α) → Option (Nat × α)
  | [] => none
  | ([]) :: rest => (pickMin key rest).map (fun p => (p.1 + 1, p.2))
  | (x :: _) :: rest =>
    match pickMin key rest with
    | none => some (0, x)
    | some (i, a) => if key a < key x then some (i + 1, a) else some (0, x)

/-- Remove the head of the `i`-th sequence (the merge consumed it). -/
def popAt : List (List α) → Nat → List (List α)
  | [], _ => []
  | l :: rest, 0 => l.tail :: rest
  | l :: rest, i + 1 => l :: popAt rest i

/-- Total number of items left across all sequences (the merge's fuel). -/
def sumLen (lists : List (List α)) : Nat := lists.flatten.length

/-- Fuel-indexed k-way merge: repeatedly emit the minimal-key head (ties to the
earlier source) and drop it from its source.  Each step emits exactly one item,
so `sumLen lists` fuel drains everything. -/
def kmergeF (key : α → Int) : Nat → List (List α) → List α
  | 0, _ => []
  | fuel + 1, lists =>
    match pickMin key lists with
    | none => []
    | some (i, a) => a :: kmergeF key fuel (popAt lists i)

/-- Modelled from the spec: the ordered k-way merge, keyed ascending with ties
broken by source registration order.  It stands both for the repository's
`amerge` utility (imported from `genshin.utils`, a module not present under
`src/`, specified in section 4.2 of the design) and for the standard library's
`heapq.merge` used by the eager branch (documented as the lazy merge of sorted
inputs whose heap entries break key ties by input index). -/
def kmerge (key : α → Int) (lists : List (List α)) : List α :=
  kmergeF key (sumLen lists) lists

/-- `asyncio.gather` over the already-settled outcomes of the child drains:
all results in order when every child succeeded, otherwise the failure of the
first failed child. -/
def gatherE : List (Except PyExc (List α)) → Except PyExc (List (List α))
  | [] => .ok ([])
  | (.error e) :: _ => .error e
  | (.ok l) :: rest =>
    match gatherE rest with
    | .error e => .error e
    | .ok ls => .ok (l :: ls)

/-- `MergedWishHistory.flatten` / `MergedTransactions.flatten` over the settled
outcomes of the K child paginators (each child's flattened stream, computed with
the same `limit`/`end_id` keyword arguments the merged paginator forwards to its
children).  When a limit is configured and `lazy` is requested, the merged
stream `amerge(...)` is sliced by `aislice(…, self.limit)`; otherwise all
children are gathered, merged offline with `heapq.merge`, and cut by the Python
slice `[: self.limit]`. -/
def mergedFlatten (key : α → Int) (childResults : List (Except PyExc (List α)))
    (limit : Option Nat) (lazy : Bool) : Except PyExc (List α) :=
  if lazy && limit.isSome then
    match gatherE childResults with
    | .error e => .error e
    | .ok lists => .ok (aisliceList (kmerge key lists) limit)
  else
    match gatherE childResults with
    | .error e => .error e
    | .ok lists => .ok (pySlice (kmerge key lists) limit)

lemma pickMin_none (key : α → Int) :
    ∀ (lists : List (List α)), pickMin key lists = none → ∀ l ∈ lists, l = [] := by
  intro lists
  induction lists with
  | nil => intro _ l hl; simp at hl
  | cons hd rest ih =>
    intro h l hl
    cases hd with
    | nil =>
      simp only [pickMin, Option.map_eq_none'] at h
      rcases List.mem_cons.mp hl with rfl | hl2
      · rfl
      · exact ih h l hl2
    | cons x xs =>
      exfalso
      simp only [pickMin] at h
      cases hp : pickMin key rest with
      | none => rw [hp] at h; simp at h
      | some p =>
        rw [hp] at h
        obtain ⟨i, a⟩ := p
        by_cases hk : key a < key x <;> simp [hk] at h

lemma pickMin_get (key : α → Int) :
    ∀ (lists : List (List α)) (i : Nat) (a : α), pickMin key lists = some (i, a) →
      ∃ t, lists[i]? = some (a :: t) := by
  intro lists
  induction lists with
  | nil => intro i a h; simp [pickMin] at h
  | cons hd rest ih =>
    intro i a h
    cases hd with
    | nil =>
      simp only [pickMin, Option.map_eq_some'] at h
      obtain ⟨⟨j, b⟩, hj, hba⟩ := h
      cases hba
      obtain ⟨t, ht⟩ := ih j b hj
      exact ⟨t, by simpa using ht⟩
    | cons x xs =>
      simp only [pickMin] at h
      cases hp : pickMin key rest with
      | none =>
        rw [hp] at h
        simp at h
        obtain ⟨rfl, rfl⟩ := h
        exact ⟨xs, by simp⟩
      | some p =>
        obtain ⟨j, b⟩ := p
        rw [hp] at h
        by_cases hk : key b < key x
        · simp only [if_pos hk] at h
          simp at h
          obtain ⟨rfl, rfl⟩ := h
          obtain ⟨t, ht⟩ := ih j b hp
          exact ⟨t, by simpa using ht⟩
        · simp only [if_neg hk] at h
          simp at h
          obtain ⟨rfl, rfl⟩ := h
          exact ⟨xs, by simp⟩

lemma pickMin_min (key : α → Int) :
    ∀ (lists : List (List α)) (i : Nat) (a : α), pickMin key lists = some (i, a) →
      ∀ l ∈ lists, ∀ y ys, l = y :: ys → key a ≤ key y := by
  intro lists
  induction lists with
  | nil => intro i a h; simp [pickMin] at h
  | cons hd rest ih =>
    intro i a h l hl y ys hys
    cases hd with
    | nil =>
      simp only [pickMin, Option.map_eq_some'] at h
      obtain ⟨⟨j, b⟩, hj, hba⟩ := h
      cases hba
      rcases List.mem_cons.mp hl with rfl | hl2
      · exact List.noConfusion hys
      · exact ih j b hj l hl2 y ys hys
    | cons x xs =>
      simp only [pickMin] at h
      cases hp : pickMin key rest with
      | none =>
        rw [hp] at h
        simp at h
        obtain ⟨rfl, rfl⟩ := h
        rcases List.mem_cons.mp hl with rfl | hl2
        · cases hys; exact le_refl _
        · have hnil := pickMin_none key rest hp l hl2
          rw [hnil] at hys
          exact List.noConfusion hys
      | some p =>
        obtain ⟨j, b⟩ := p
        rw [hp] at h
        by_cases hk : key b < key x
        · simp only [if_pos hk] at h
          simp at h
          obtain ⟨rfl, rfl⟩ := h
          rcases List.mem_cons.mp hl with rfl | hl2
          · cases hys; exact le_of_lt hk
          · exact ih j b hp l hl2 y ys hys
        · simp only [if_neg hk] at h
          simp at h
          obtain ⟨rfl, rfl⟩ := h
          rcases List.mem_cons.mp hl with rfl | hl2
          · cases hys; exact le_refl _
          · exact le_trans (not_lt.mp hk) (ih j b hp l hl2 y ys hys)

lemma popAt_flatten_perm :
    ∀ (lists : List (List α)) (i : Nat) (a : α) (t : List α),
      lists[i]? = some (a :: t) →
      lists.flatten.Perm (a :: (popAt lists i).flatten) := by
  intro lists
  induction lists with
  | nil => intro i a t h; simp at h
  | cons hd rest ih =>
    intro i a t h
    cases i with
    | zero =>
      simp at h
      subst h
      simp only [popAt, List.flatten_cons, List.tail_cons, List.cons_append]
      exact List.Perm.refl _
    | succ j =>
      simp at h
      have hperm := ih j a t h
      simp only [popAt, List.flatten_cons]
      exact (hperm.append_left hd).trans List.perm_middle

lemma popAt_mem :
    ∀ (lists : List (List α)) (i : Nat) (lb : List α), lb ∈ popAt lists i →
      lb ∈ lists ∨ ∃ a, lists[i]? = some (a :: lb) := by
  intro lists
  induction lists with
  | nil => intro i lb h; simp [popAt] at h
  | cons hd rest ih =>
    intro i lb h
    cases i with
    | zero =>
      simp only [popAt] at h
      rcases List.mem_cons.mp h with rfl | h2
      · cases hd with
        | nil => exact Or.inl (by simp)
        | cons a t => exact Or.inr ⟨a, by simp⟩
      · exact Or.inl (List.mem_cons_of_mem _ h2)
    | succ j =>
      simp only [popAt] at h
      rcases List.mem_cons.mp h with rfl | h2
      · exact Or.inl (List.mem_cons_self _ _)
      · rcases ih j lb h2 with h3 | ⟨a, h4⟩
        · exact Or.inl (List.mem_cons_of_mem _ h3)
        · exact Or.inr ⟨a, by simpa using h4⟩

lemma popAt_sumLen (lists : List (List α)) (i : Nat) (a : α) (t : List α)
    (h : lists[i]? = some (a :: t)) : sumLen (popAt lists i) + 1 = sumLen lists := by
  have hlen := (popAt_flatten_perm lists i a t h).length_eq
  simp only [sumLen, List.length_cons] at hlen ⊢
  omega

lemma kmergeF_perm (key : α → Int) :
    ∀ (fuel : Nat) (lists : List (List α)), sumLen lists ≤ fuel →
      (kmergeF key fuel lists).Perm lists.flatten := by
  intro fuel
  induction fuel with
  | zero =>
    intro lists h
    have h0 : lists.flatten = [] :=
      List.length_eq_zero.mp (Nat.le_zero.mp (by simpa [sumLen] using h))
    rw [h0]
    exact List.Perm.refl _
  | succ fuel ih =>
    intro lists h
    cases hp : pickMin key lists with
    | none =>
      have hall := pickMin_none key lists hp
      have hnil : lists.flatten = [] := List.flatten_eq_nil_iff.mpr hall
      simp only [kmergeF, hp, hnil]
      exact List.Perm.refl _
    | some p =>
      obtain ⟨i, a⟩ := p
      obtain ⟨t, ht⟩ := pickMin_get key lists i a hp
      have hperm := popAt_flatten_perm lists i a t ht
      have hlen := popAt_sumLen lists i a t ht
      have ihp := ih (popAt lists i) (by omega)
      simp only [kmergeF, hp]
      exact (ihp.cons a).trans hperm.symm

lemma kmergeF_sorted (key : α → Int) :
    ∀ (fuel : Nat) (lists : List (List α)), sumLen lists ≤ fuel →
      (∀ l ∈ lists, l.Pairwise (fun u v => key u ≤ key v)) →
      (kmergeF key fuel lists).Pairwise (fun u v => key u ≤ key v) := by
  intro fuel
  induction fuel with
  | zero => intro lists _ _; exact List.Pairwise.nil
  | succ fuel ih =>
    intro lists h hsort
    cases hp : pickMin key lists with
    | none => simp only [kmergeF, hp]; exact List.Pairwise.nil
    | some p =>
      obtain ⟨i, a⟩ := p
      obtain ⟨t, ht⟩ := pickMin_get key lists i a hp
      have hlen := popAt_sumLen lists i a t ht
      have hle : sumLen (popAt lists i) ≤ fuel := by omega
      have hsortp : ∀ l ∈ popAt lists i, l.Pairwise (fun u v => key u ≤ key v) := by
        intro lb hlb
        rcases popAt_mem lists i lb hlb with h1 | ⟨b, h2⟩
        · exact hsort lb h1
        · exact (hsort (b :: lb) (List.getElem?_mem h2)).of_cons
      have ihp := ih (popAt lists i) hle hsortp
      simp only [kmergeF, hp]
      refine List.Pairwise.cons ?_ ihp
      intro b hb
      have hbf : b ∈ (popAt lists i).flatten :=
        (kmergeF_perm key fuel (popAt lists i) hle).mem_iff.mp hb
      obtain ⟨lb, hlb, hbl⟩ := List.mem_flatten.mp hbf
      rcases popAt_mem lists i lb hlb with h1 | ⟨c, h2⟩
      · cases lb with
        | nil => simp at hbl
        | cons y ys =>
          have hay : key a ≤ key y := pickMin_min key lists i a hp (y :: ys) h1 y ys rfl
          rcases List.mem_cons.mp hbl with rfl | hbys
          · exact hay
          · exact le_trans hay ((List.pairwise_cons.mp (hsort (y :: ys) h1)).1 b hbys)
      · rw [ht] at h2
        injection h2 with h3
        injection h3 with h4 h5
        subst h4
        subst h5
        exact (List.pairwise_cons.mp (hsort (a :: t) (List.getElem?_mem ht))).1 b hbl

lemma kmerge_perm (key : α → Int) (lists : List (List α)) :
    (kmerge key lists).Perm lists.flatten :=
  kmergeF_perm key (sumLen lists) lists (le_refl _)

lemma kmerge_sorted (key : α → Int) (lists : List (List α))
    (hsort : ∀ l ∈ lists, l.Pairwise (fun u v => key u ≤ key v)) :
    (kmerge key lists).Pairwise (fun u v => key u ≤ key v) :=
  kmergeF_sorted key (sumLen lists) lists (le_refl _) hsort

lemma gatherE_ok : ∀ (lists : List (List α)), gatherE (lists.map Except.ok) = .ok lists := by
  intro lists
  induction lists with
  | nil => rfl
  | cons l rest ih => simp [gatherE, ih]

lemma gatherE_error (e : PyExc) :
    ∀ (pre post : List (Except PyExc (List α))), (∀ r ∈ pre, ∃ l, r = Except.ok l) →
      gatherE (pre ++ Except.error e :: post) = .error e := by
  intro pre
  induction pre with
  | nil => intro post _; rfl
  | cons r rest ih =>
    intro post hpre
    obtain ⟨l, rfl⟩ := hpre r (List.mem_cons_self _ _)
    have hrest := ih post (fun x hx => hpre x (List.mem_cons_of_mem _ hx))
    simp [gatherE, hrest]

lemma contPage_map_fst (data : List α) (o : Option (Except PyExc (List α) × PagState)) :
    (contPage data o).map (fun p => p.1) =
      (o.map (fun p => p.1)).map
        (fun r => match r with | .error e => .error e | .ok rest => .ok (data ++ rest)) := by
  cases o with
  | none => rfl
  | some p =>
    obtain ⟨r, s⟩ := p
    cases r <;> rfl

lemma next_page_frame (fetch : Int → Except PyExc (List α)) (ident : α → Int) (st : PagState) :
    (next_page fetch ident st).2.limit = st.limit ∧
    (next_page fetch ident st).2.authkey = st.authkey := by
  obtain ⟨l, eid, auth⟩ := st
  cases eid with
  | none => exact ⟨rfl, rfl⟩
  | some e =>
    cases hf : fetch e with
    | error err => simp [next_page, hf]
    | ok data => simp [next_page, hf]

lemma next_page_exhausted (fetch : Int → Except PyExc (List α)) (ident : α → Int)
    (st : PagState) (h : st.end_id = none) :
    next_page fetch ident st = (.error (.exception ("No more pages")), st) := by
  obtain ⟨l, eid, auth⟩ := st
  simp only at h
  subst h
  rfl

lemma next_page_congr (fetch : Int → Except PyExc (List α)) (ident : α → Int)
    (stA stB : PagState) (h : stA.end_id = stB.end_id) :
    (next_page fetch ident stA).1 = (next_page fetch ident stB).1 ∧
    (next_page fetch ident stA).2.end_id = (next_page fetch ident stB).2.end_id := by
  obtain ⟨lA, eA, aA⟩ := stA
  obtain ⟨lB, eB, aB⟩ := stB
  simp only at h
  subst h
  cases eA with
  | none => exact ⟨rfl, rfl⟩
  | some e =>
    cases hf : fetch e with
    | error err => simp [next_page, hf]
    | ok data => simp [next_page, hf]

lemma runIterSt_exhausted (fetch : Int → Except PyExc (List α)) (ident : α → Int)
    (fuel : Nat) (rem : Option Nat) (st : PagState) (h : st.end_id = none) :
    runIterSt fetch ident fuel rem st = some (.ok ([]), st) := by
  cases fuel <;> cases rem <;> simp [runIterSt, h]

lemma runIterSt_frame (fetch : Int → Except PyExc (List α)) (ident : α → Int) :
    ∀ (fuel : Nat) (rem : Option Nat) (st : PagState) (res : Except PyExc (List α))
      (st2 : PagState),
      runIterSt fetch ident fuel rem st = some (res, st2) →
      st2.limit = st.limit ∧ st2.authkey = st.authkey := by
  intro fuel
  induction fuel with
  | zero =>
    intro rem st res st2 h
    by_cases hr : rem = some 0
    · simp only [runIterSt, if_pos hr, Option.some.injEq, Prod.mk.injEq] at h
      obtain ⟨rfl, rfl⟩ := h
      exact ⟨rfl, rfl⟩
    · by_cases he : st.end_id = none
      · simp only [runIterSt, if_neg hr, if_pos he, Option.some.injEq, Prod.mk.injEq] at h
        obtain ⟨rfl, rfl⟩ := h
        exact ⟨rfl, rfl⟩
      · simp only [runIterSt, if_neg hr, if_neg he] at h
        exact Option.noConfusion h
  | succ fuel ih =>
    intro rem st res st2 h
    by_cases hr : rem = some 0
    · simp only [runIterSt, if_pos hr, Option.some.injEq, Prod.mk.injEq] at h
      obtain ⟨rfl, rfl⟩ := h
      exact ⟨rfl, rfl⟩
    · by_cases he : st.end_id = none
      · simp only [runIterSt, if_neg hr, if_pos he, Option.some.injEq, Prod.mk.injEq] at h
        obtain ⟨rfl, rfl⟩ := h
        exact ⟨rfl, rfl⟩
      · obtain ⟨hfl, hfa⟩ := next_page_frame fetch ident st
        cases hnp : next_page fetch ident st with
        | mk r st1 =>
          rw [hnp] at hfl hfa
          simp only at hfl hfa
          cases r with
          | error e =>
            simp only [runIterSt, if_neg hr, if_neg he, hnp, Option.some.injEq,
              Prod.mk.injEq] at h
            obtain ⟨rfl, rfl⟩ := h
            exact ⟨hfl, hfa⟩
          | ok data =>
            cases rem with
            | none =>
              simp only [runIterSt, if_neg hr, if_neg he, hnp] at h
              cases hrec : runIterSt fetch ident fuel none st1 with
              | none => rw [hrec] at h; simp [contPage] at h
              | some q =>
                obtain ⟨r2, st3⟩ := q
                rw [hrec] at h
                have hst3 := ih none st1 r2 st3 hrec
                cases r2 with
                | error e2 =>
                  simp only [contPage, Option.some.injEq, Prod.mk.injEq] at h
                  obtain ⟨rfl, rfl⟩ := h
                  exact ⟨hst3.1.trans hfl, hst3.2.trans hfa⟩
                | ok rest =>
                  simp only [contPage, Option.some.injEq, Prod.mk.injEq] at h
                  obtain ⟨rfl, rfl⟩ := h
                  exact ⟨hst3.1.trans hfl, hst3.2.trans hfa⟩
            | some r3 =>
              by_cases hld : r3 ≤ data.length
              · simp only [runIterSt, if_neg hr, if_neg he, hnp, if_pos hld] at h
                simp only [Option.some.injEq, Prod.mk.injEq] at h
                obtain ⟨rfl, rfl⟩ := h
                exact ⟨hfl, hfa⟩
              · simp only [runIterSt, if_neg hr, if_neg he, hnp, if_neg hld] at h
                cases hrec : runIterSt fetch ident fuel (some (r3 - data.length)) st1 with
                | none => rw [hrec] at h; simp [contPage] at h
                | some q =>
                  obtain ⟨r2, st3⟩ := q
                  rw [hrec] at h
                  have hst3 := ih (some (r3 - data.length)) st1 r2 st3 hrec
                  cases r2 with
                  | error e2 =>
                    simp only [contPage, Option.some.injEq, Prod.mk.injEq] at h
                    obtain ⟨rfl, rfl⟩ := h
                    exact ⟨hst3.1.trans hfl, hst3.2.trans hfa⟩
                  | ok rest =>
                    simp only [contPage, Option.some.injEq, Prod.mk.injEq] at h
                    obtain ⟨rfl, rfl⟩ := h
                    exact ⟨hst3.1.trans hfl, hst3.2.trans hfa⟩

lemma runIterSt_items_congr (fetch : Int → Except PyExc (List α)) (ident : α → Int) :
    ∀ (fuel : Nat) (rem : Option Nat) (stA stB : PagState), stA.end_id = stB.end_id →
      (runIterSt fetch ident fuel rem stA).map (fun p => p.1) =
      (runIterSt fetch ident fuel rem stB).map (fun p => p.1) := by
  intro fuel
  induction fuel with
  | zero =>
    intro rem stA stB h
    by_cases hr : rem = some 0
    · simp [runIterSt, hr]
    · by_cases he : stA.end_id = none
      · have heB : stB.end_id = none := by rw [← h]; exact he
        simp [runIterSt, hr, he, heB]
      · have heB : ¬ stB.end_id = none := by rw [← h]; exact he
        simp [runIterSt, hr, he, heB]
  | succ fuel ih =>
    intro rem stA stB h
    by_cases hr : rem = some 0
    · simp [runIterSt, hr]
    · by_cases he : stA.end_id = none
      · have heB : stB.end_id = none := by rw [← h]; exact he
        simp [runIterSt, hr, he, heB]
      · have heB : ¬ stB.end_id = none := by rw [← h]; exact he
        obtain ⟨hv, he2⟩ := next_page_congr fetch ident stA stB h
        cases hnpA : next_page fetch ident stA with
        | mk rA st1A =>
          cases hnpB : next_page fetch ident stB with
          | mk rB st1B =>
            rw [hnpA, hnpB] at hv he2
            simp only at hv he2
            subst hv
            cases rA with
            | error e =>
              simp only [runIterSt, if_neg hr, if_neg he, if_neg heB, hnpA, hnpB]
              rfl
            | ok data =>
              cases rem with
              | none =>
                have ihh := ih none st1A st1B he2
                simp only [runIterSt, if_neg hr, if_neg he, if_neg heB, hnpA, hnpB]
                rw [contPage_map_fst, contPage_map_fst, ihh]
              | some r3 =>
                by_cases hld : r3 ≤ data.length
                · simp only [runIterSt, if_neg hr, if_neg he, if_neg heB, hnpA, hnpB,
                    if_pos hld]
                  rfl
                · have ihh := ih (some (r3 - data.length)) st1A st1B he2
                  simp only [runIterSt, if_neg hr, if_neg he, if_neg heB, hnpA, hnpB,
                    if_neg hld]
                  rw [contPage_map_fst, contPage_map_fst, ihh]

lemma runIterSt_take (fetch : Int → Except PyExc (List α)) (ident : α → Int) :
    ∀ (fuel : Nat) (st : PagState) (O : List α) (stf : PagState) (L : Nat), 1 ≤ L →
      runIterSt fetch ident fuel none st = some (.ok O, stf) →
      (runIterSt fetch ident fuel (some L) st).map (fun p => p.1) =
        some (.ok (O.take L)) := by
  intro fuel
  induction fuel with
  | zero =>
    intro st O stf L hL h
    have hLne : ¬ ((some L : Option Nat) = some 0) := by simp; omega
    have hNne : ¬ ((none : Option Nat) = some 0) := by simp
    by_cases he : st.end_id = none
    · simp only [runIterSt, if_neg hNne, if_pos he, Option.some.injEq, Prod.mk.injEq,
        Except.ok.injEq] at h
      obtain ⟨rfl, rfl⟩ := h
      simp [runIterSt, hLne, he]
    · simp only [runIterSt, if_neg hNne, if_neg he] at h
      exact Option.noConfusion h
  | succ fuel ih =>
    intro st O stf L hL h
    have hLne : ¬ ((some L : Option Nat) = some 0) := by simp; omega
    have hNne : ¬ ((none : Option Nat) = some 0) := by simp
    by_cases he : st.end_id = none
    · simp only [runIterSt, if_neg hNne, if_pos he, Option.some.injEq, Prod.mk.injEq,
        Except.ok.injEq] at h
      obtain ⟨rfl, rfl⟩ := h
      simp [runIterSt, hLne, he]
    · cases hnp : next_page fetch ident st with
      | mk r st1 =>
        cases r with
        | error e =>
          simp only [runIterSt, if_neg hNne, if_neg he, hnp] at h
          simp at h
        | ok data =>
          simp only [runIterSt, if_neg hNne, if_neg he, hnp] at h
          simp only [runIterSt, if_neg hLne, if_neg he, hnp]
          cases hrec : runIterSt fetch ident fuel none st1 with
          | none => rw [hrec] at h; exact Option.noConfusion h
          | some q =>
            obtain ⟨r2, st3⟩ := q
            rw [hrec] at h
            cases r2 with
            | error e2 => simp [contPage] at h
            | ok rest =>
              simp only [contPage, Option.some.injEq, Prod.mk.injEq,
                Except.ok.injEq] at h
              obtain ⟨rfl, rfl⟩ := h
              by_cases hld : L ≤ data.length
              · rw [if_pos hld]
                simp only [Option.map_some']
                rw [List.take_append_eq_append_take]
                have h0 : L - data.length = 0 := by omega
                rw [h0]
                simp
              · rw [if_neg hld]
                have ih2 := ih st1 rest st3 (L - data.length) (by omega) hrec
                rw [contPage_map_fst, ih2]
                simp only [Option.map_some']
                rw [List.take_append_eq_append_take]
                have hda : data.take L = data := List.take_of_length_le (by omega)
                rw [hda]

lemma stopOfLimit_pos (L : Nat) (hL : 1 ≤ L) : stopOfLimit (some L) = some L := by
  cases L with
  | zero => omega
  | succ n => rfl

/-- C1: for child flattened lists each sorted ascending by the key, the eager
(`lazy=false`) merged flatten gathers all child drains and returns the k-way
merge of the K lists — a list globally sorted ascending by the key and a
permutation containing every item of every child exactly once — truncated by
the Python slice `[: limit]`. -/
theorem C1_eager_merge_sorted_perm (key : α → Int) (lists : List (List α))
    (limit : Option Nat)
    (hsort : ∀ l ∈ lists, l.Pairwise (fun u v => key u ≤ key v)) :
    mergedFlatten key (lists.map Except.ok) limit false =
      .ok (pySlice (kmerge key lists) limit) ∧
    (kmerge key lists).Pairwise (fun u v => key u ≤ key v) ∧
    (kmerge key lists).Perm lists.flatten := by
  refine ⟨?_, kmerge_sorted key lists hsort, kmerge_perm key lists⟩
  simp [mergedFlatten, gatherE_ok]

/-- C1 witness: the spec's concrete scenario (sources `[1,4,7]`, `[2,5]`,
`[3,6,8,9]`) through the eager merged flatten with no limit. -/
theorem C1_witness :
    mergedFlatten (fun n : Int => n)
        (([[1, 4, 7], [2, 5], [3, 6, 8, 9]] : List (List Int)).map Except.ok)
        none false =
      .ok (pySlice (kmerge (fun n : Int => n)
        ([[1, 4, 7], [2, 5], [3, 6, 8, 9]])) none) ∧
    (kmerge (fun n : Int => n) ([[1, 4, 7], [2, 5], [3, 6, 8, 9]])).Pairwise
      (fun u v => u ≤ v) ∧
    (kmerge (fun n : Int => n) ([[1, 4, 7], [2, 5], [3, 6, 8, 9]])).Perm
      ([[1, 4, 7], [2, 5], [3, 6, 8, 9]] : List (List Int)).flatten :=
  C1_eager_merge_sorted_perm (fun n : Int => n) ([[1, 4, 7], [2, 5], [3, 6, 8, 9]])
    none (by decide)

/-- C2: one `next_page` call on a non-exhausted paginator fetches at the
current cursor; a page strictly shorter than `page_size = 20` (including an
empty one) is returned as-is and the paginator becomes exhausted, otherwise the
cursor advances to the id of the last item and the paginator stays
non-exhausted; exhaustion after the call holds exactly when the page was
short. -/
theorem C2_next_page_step (fetch : Int → Except PyExc (List α)) (ident : α → Int)
    (st : PagState) (e : Int) (data : List α)
    (hid : st.end_id = some e) (hf : fetch e = .ok data) :
    (data.length < page_size →
      next_page fetch ident st = (.ok data, { st with end_id := none })) ∧
    (∀ hne : data ≠ [], ¬ data.length < page_size →
      next_page fetch ident st =
        (.ok data, { st with end_id := some (ident (data.getLast hne)) })) ∧
    ((next_page fetch ident st).2.end_id = none ↔ data.length < page_size) := by
  obtain ⟨l, eid, auth⟩ := st
  simp only at hid
  subst hid
  have hnp : next_page fetch ident ⟨l, some e, auth⟩
      = (.ok data, ⟨l, pageNextEnd ident data, auth⟩) := by
    simp [next_page, hf]
  refine ⟨?_, ?_, ?_⟩
  · intro hshort
    rw [hnp]
    simp [pageNextEnd, hshort]
  · intro hne hlong
    rw [hnp]
    simp only [pageNextEnd, dif_neg hlong]
  · rw [hnp]
    simp only
    constructor
    · intro h2
      by_contra hlong
      simp [pageNextEnd, dif_neg hlong] at h2
    · intro hshort
      simp [pageNextEnd, hshort]

/-- C2 witness: a single short page `[5]` exhausts the paginator and is
returned unchanged. -/
theorem C2_witness :
    next_page (fun _ => Except.ok ([(5 : Int)])) (fun n => n) ⟨none, some 0, none⟩
      = (Except.ok ([(5 : Int)]), ⟨none, none, none⟩) :=
  (C2_next_page_step (fun _ => Except.ok ([(5 : Int)])) (fun n => n)
    ⟨none, some 0, none⟩ 0 ([(5 : Int)]) rfl rfl).1 (by decide)

/-- C3 counterexample: for a paginator whose only fetch returns the short page
`[7]`, the unlimited flatten is `[7]`, and the flatten configured with limit 0
is also `[7]` — not the empty prefix `O[:0] = []` the claim demands, because
`aislice` treats the stop value `0` as falsy and never stops. -/
theorem C3_counterexample :
    flattenP (fun _ => Except.ok ([(7 : Int)])) (fun n => n) 1
        ⟨some 0, some 0, none⟩ = some (.ok ([(7 : Int)])) ∧
    flattenP (fun _ => Except.ok ([(7 : Int)])) (fun n => n) 1
        ⟨none, some 0, none⟩ = some (.ok ([(7 : Int)])) ∧
    List.take 0 ([(7 : Int)]) ≠ [(7 : Int)] :=
  ⟨rfl, rfl, by decide⟩

/-- C3 (amended): for every cursor paginator over a fixed fetch oracle whose
unlimited flatten terminates with value `O`, the flatten configured with limit
`L ≥ 1` returns the prefix `O[:L]`; a configured limit of `0` is treated as
falsy and behaves like no limit, returning all of `O` (not the empty list). -/
theorem C3_flatten_limit_take (fetch : Int → Except PyExc (List α)) (ident : α → Int)
    (fuel : Nat) (e0 : Option Int) (auth : Option String) (O : List α)
    (hO : flattenP fetch ident fuel ⟨none, e0, auth⟩ = some (.ok O)) :
    (∀ L : Nat, 1 ≤ L →
      flattenP fetch ident fuel ⟨some L, e0, auth⟩ = some (.ok (O.take L))) ∧
    flattenP fetch ident fuel ⟨some 0, e0, auth⟩ = some (.ok O) := by
  obtain ⟨stf, hrun⟩ : ∃ stf,
      runIterSt fetch ident fuel none ⟨none, e0, auth⟩ = some (.ok O, stf) := by
    obtain ⟨⟨r, stf⟩, hrun, hr⟩ := Option.map_eq_some'.mp hO
    dsimp only at hr
    subst hr
    exact ⟨stf, hrun⟩
  constructor
  · intro L hL
    have hcongr := runIterSt_items_congr fetch ident fuel (some L)
      ⟨some L, e0, auth⟩ ⟨none, e0, auth⟩ rfl
    have htake := runIterSt_take fetch ident fuel ⟨none, e0, auth⟩ O stf L hL hrun
    show (runIterSt fetch ident fuel (stopOfLimit (some L))
      ⟨some L, e0, auth⟩).map (fun p => p.1) = some (.ok (O.take L))
    rw [stopOfLimit_pos L hL, hcongr, htake]
  · have hcongr := runIterSt_items_congr fetch ident fuel none
      ⟨some 0, e0, auth⟩ ⟨none, e0, auth⟩ rfl
    show (runIterSt fetch ident fuel (stopOfLimit (some 0))
      ⟨some 0, e0, auth⟩).map (fun p => p.1) = some (.ok O)
    rw [show stopOfLimit (some 0) = none from rfl, hcongr, hrun]
    rfl

/-- C3 witness: with unlimited output `[7, 8]`, limit 1 flattens to `[7]`. -/
theorem C3_witness :
    flattenP (fun _ => Except.ok ([(7 : Int), 8])) (fun n => n) 1
        ⟨some 1, some 0, none⟩ = some (.ok ([(7 : Int)])) :=
  (C3_flatten_limit_take (fun _ => Except.ok ([(7 : Int), 8])) (fun n => n) 1
    (some 0) none ([(7 : Int), 8]) rfl).1 1 (by decide)

/-- C4: lazy and eager merged flatten return identical lists whenever no limit
is configured, or the configured limit is at least the total number of
available items across the K child streams. -/
theorem C4_lazy_eager_agree (key : α → Int) (lists : List (List α)) (limit : Option Nat)
    (h : limit = none ∨ ∃ n, limit = some n ∧ sumLen lists ≤ n) :
    mergedFlatten key (lists.map Except.ok) limit true =
      mergedFlatten key (lists.map Except.ok) limit false := by
  rcases h with rfl | ⟨n, rfl, hn⟩
  · rfl
  · have hlen : (kmerge key lists).length = sumLen lists := by
      have hp := (kmerge_perm key lists).length_eq
      simpa [sumLen] using hp
    cases n with
    | zero =>
      have hnil : kmerge key lists = [] := List.length_eq_zero.mp (by omega)
      simp [mergedFlatten, gatherE_ok, hnil, aisliceList, pySlice]
    | succ m =>
      simp [mergedFlatten, gatherE_ok, aisliceList, pySlice]

/-- C4 witness: two sources and a limit larger than the total item count. -/
theorem C4_witness :
    mergedFlatten (fun n : Int => n) (([[1, 3], [2]] : List (List Int)).map Except.ok)
        (some 5) true =
      mergedFlatten (fun n : Int => n) (([[1, 3], [2]] : List (List Int)).map Except.ok)
        (some 5) false :=
  C4_lazy_eager_agree (fun n : Int => n) ([[1, 3], [2]]) (some 5)
    (Or.inr ⟨5, rfl, by decide⟩)

/-- C5: in eager mode, when one child drain fails (every earlier child having
succeeded), the merged flatten propagates exactly that failure unmodified and
returns no merged list built from the remaining children. -/
theorem C5_eager_failfast (key : α → Int) (limit : Option Nat)
    (pre post : List (Except PyExc (List α))) (e : PyExc)
    (hpre : ∀ r ∈ pre, ∃ l, r = Except.ok l) :
    mergedFlatten key (pre ++ .error e :: post) limit false = .error e := by
  have hg := gatherE_error e pre post hpre
  simp [mergedFlatten, hg]

/-- C5 witness: source 2 of 3 fails; the merged eager flatten surfaces that
failure rather than a partial two-source merge. -/
theorem C5_witness :
    mergedFlatten (fun n : Int => n)
        ([Except.ok ([(1 : Int)]), Except.error (PyExc.other ("ClientError") ("boom")),
          Except.ok ([(2 : Int)])]) none false =
      Except.error (PyExc.other ("ClientError") ("boom")) :=
  C5_eager_failfast (fun n : Int => n) none ([Except.ok ([(1 : Int)])])
    ([Except.ok ([(2 : Int)])]) (PyExc.other ("ClientError") ("boom"))
    (fun _ hr => ⟨[(1 : Int)], List.mem_singleton.mp hr⟩)

/-- C6 counterexample: the exhaustion signal is the generic
`Exception("No more pages")`, not a distinguished `ExhaustedError` class: a
fetch failure carrying the same generic exception value produces a result
indistinguishable from the exhaustion raise, although the second paginator is
not exhausted. -/
theorem C6_counterexample :
    (next_page (fun _ => Except.error (PyExc.exception ("No more pages")))
        (fun n : Int => n) ⟨none, none, none⟩).1 =
      (next_page (fun _ => Except.error (PyExc.exception ("No more pages")))
        (fun n : Int => n) ⟨none, some 0, none⟩).1 ∧
    (⟨none, some 0, none⟩ : PagState).end_id ≠ none :=
  ⟨rfl, by decide⟩

/-- C6 (amended): calling `next_page` on an exhausted paginator raises the
generic `Exception("No more pages")` (not a distinguished `ExhaustedError`
class), leaves the state unchanged, and performs no fetch — the result is the
same for every fetch oracle; callers can only distinguish this from an
upstream failure when the upstream error value differs. -/
theorem C6_exhausted_raises (fetch : Int → Except PyExc (List α)) (ident : α → Int)
    (st : PagState) (h : st.end_id = none) :
    next_page fetch ident st = (.error (.exception ("No more pages")), st) :=
  next_page_exhausted fetch ident st h

/-- C6 witness: a concrete exhausted paginator. -/
theorem C6_witness :
    next_page (fun _ => Except.ok ([] : List Int)) (fun n => n) ⟨none, none, none⟩
      = (Except.error (PyExc.exception ("No more pages")), ⟨none, none, none⟩) :=
  C6_exhausted_raises (fun _ => Except.ok ([] : List Int)) (fun n => n)
    ⟨none, none, none⟩ rfl

/-- C7: exhaustion is terminal — on an exhausted paginator `next_page` raises
and leaves the state unchanged (still exhausted), and iteration and flatten
issue no fetch, return the empty continuation, and leave the state unchanged,
for every fuel and every slice allowance. -/
theorem C7_exhaustion_terminal (fetch : Int → Except PyExc (List α)) (ident : α → Int)
    (st : PagState) (h : st.end_id = none) :
    next_page fetch ident st = (.error (.exception ("No more pages")), st) ∧
    (∀ fuel rem, runIterSt fetch ident fuel rem st = some (.ok ([]), st)) ∧
    (∀ fuel, flattenP fetch ident fuel st = some (.ok ([]))) := by
  refine ⟨next_page_exhausted fetch ident st h,
    fun fuel rem => runIterSt_exhausted fetch ident fuel rem st h,
    fun fuel => ?_⟩
  show (runIterSt fetch ident fuel (stopOfLimit st.limit) st).map (fun p => p.1)
    = some (.ok ([]))
  rw [runIterSt_exhausted fetch ident fuel (stopOfLimit st.limit) st h]
  rfl

/-- C7 witness: iterating a concrete exhausted paginator yields nothing and
does not change the state. -/
theorem C7_witness :
    runIterSt (fun _ => Except.ok ([] : List Int)) (fun n => n) 3 none
        ⟨none, none, none⟩ = some (Except.ok ([] : List Int), ⟨none, none, none⟩) :=
  (C7_exhaustion_terminal (fun _ => Except.ok ([] : List Int)) (fun n => n)
    ⟨none, none, none⟩ rfl).2.1 3 none

/-- C9: `next_page` and the iteration/flatten pipeline mutate only the cursor
field `end_id` — the configured `limit` and the `authkey` are preserved by
every operation (`page_size` is a constant definition, not state) — and when
`next_page` fails because the paginator is exhausted the whole state is left
unchanged. -/
theorem C9_frame (fetch : Int → Except PyExc (List α)) (ident : α → Int)
    (st : PagState) :
    (next_page fetch ident st).2.limit = st.limit ∧
    (next_page fetch ident st).2.authkey = st.authkey ∧
    (st.end_id = none →
      next_page fetch ident st = (.error (.exception ("No more pages")), st)) ∧
    (∀ fuel rem res st2, runIterSt fetch ident fuel rem st = some (res, st2) →
      st2.limit = st.limit ∧ st2.authkey = st.authkey) := by
  obtain ⟨h1, h2⟩ := next_page_frame fetch ident st
  exact ⟨h1, h2, next_page_exhausted fetch ident st,
    fun fuel rem res st2 h => runIterSt_frame fetch ident fuel rem st res st2 h⟩

/-- C9 witness: a concrete drain that exhausts the cursor leaves `limit` and
`authkey` untouched. -/
theorem C9_witness :
    (⟨some 9, none, some ("k")⟩ : PagState).limit = some 9 ∧
    (⟨some 9, none, some ("k")⟩ : PagState).authkey = some ("k") :=
  (C9_frame (fun _ => Except.ok ([(1 : Int), 2])) (fun n => n)
    ⟨some 9, some 0, some ("k")⟩).2.2.2 1 none (Except.ok ([(1 : Int), 2]))
    ⟨some 9, none, some ("k")⟩ rfl

/-- The client endpoints (lookup tables) the merged paginators touch. -/
inductive Endpoint where
  | getBannerTypes
  | getTransactionReasons
deriving DecidableEq

/-- The preparatory request `MergedWishHistory.flatten` schedules before
draining (line 153): `client.get_banner_types(...)`. -/
def mergedWishHistoryPrefetch : Endpoint := .getBannerTypes

/-- The lookup the enrichment step inside `WishHistory.function` consumes
(line 129 via `_get_banner_name`, line 119): `client.get_banner_types(...)`. -/
def wishHistoryEnrichment : Endpoint := .getBannerTypes

/-- The preparatory request `MergedTransactions.flatten` schedules before
draining (line 217): `client.get_banner_types(...)`. -/
def mergedTransactionsPrefetch : Endpoint := .getBannerTypes

/-- The lookup the enrichment step inside `Transactions.function` consumes
(line 178): `client._get_transaction_reasons(...)`. -/
def transactionsEnrichment : Endpoint := .getTransactionReasons

/-- C8: the wish-history merged paginator prefetches the same lookup its
children enrich from, but the transactions merged paginator prefetches the
banner-types table while its children consume the transaction-reasons table —
the claim fails on `MergedTransactions`. -/
theorem C8_prefetch_mismatch :
    mergedWishHistoryPrefetch = wishHistoryEnrichment ∧
    mergedTransactionsPrefetch = Endpoint.getBannerTypes ∧
    transactionsEnrichment = Endpoint.getTransactionReasons ∧
    mergedTransactionsPrefetch ≠ transactionsEnrichment :=
  ⟨rfl, rfl, rfl, by decide⟩

/-- A raw transaction record of one `request_transaction` page: the always
present keys, plus the "name" and "rank" keys only item transactions
(artifact and weapon logs) carry. -/
structure RawTransaction where
  id : Int
  uid : Int
  time : Int
  add_num : Int
  reason : Int
  name : Option String
  rank : Option Int
deriving DecidableEq

/-- `models/transaction.py` `Transaction`: kind plus the parsed fields
(`amount` aliased from `add_num`, `reason_id` from `reason`, `reason` from
`reason_str` with default `''`).  `kind` is modelled as a plain string. -/
structure Transaction where
  kind : String
  id : Int
  uid : Int
  time : Int
  amount : Int
  reason_id : Int
  reason : String
deriving DecidableEq

/-- `models/transaction.py` `ItemTransaction`: a `Transaction` together with
`name` and `rarity` (aliased from `rank`). -/
structure ItemTransaction where
  base : Transaction
  name : String
  rarity : Int
deriving DecidableEq

/-- The value built by one loop step of `Transactions.function`: an instance
of either model class. -/
inductive TransRecord where
  | plain : Transaction → TransRecord
  | item : ItemTransaction → TransRecord
deriving DecidableEq

/-- One loop step of `Transactions.function` (lines 188-191):
`cls = ItemTransaction if "name" in trans else Transaction`,
`reason = reasons.get(trans["reason"], "")`, then
`cls(**trans, reason_str=reason, kind=self.kind)`.  Returns `none` when the
pydantic validation of the chosen class fails (an item record without a
"rank" key). -/
def buildTransaction (kind : String) (reasons : Int → Option String)
    (r : RawTransaction) : Option TransRecord :=
  let reason := (reasons r.reason).getD ("")
  match r.name with
  | some nm =>
    match r.rank with
    | some rk =>
      some (.item ⟨⟨kind, r.id, r.uid, r.time, r.add_num, r.reason, reason⟩, nm, rk⟩)
    | none => none
  | none => some (.plain ⟨kind, r.id, r.uid, r.time, r.add_num, r.reason, reason⟩)

/-- Whether the constructed value is an `ItemTransaction`. -/
def TransRecord.isItem : TransRecord → Bool
  | .plain _ => false
  | .item _ => true

/-- The `kind` field of the constructed value. -/
def TransRecord.kindOf : TransRecord → String
  | .plain t => t.kind
  | .item t => t.base.kind

/-- The `reason` string of the constructed value. -/
def TransRecord.reasonOf : TransRecord → String
  | .plain t => t.reason
  | .item t => t.base.reason

/-- C10: for every raw record (well-formed in that an item record carries its
"rank" key, as the parse layer is assumed total), the fetch function builds an
`ItemTransaction` exactly when the record has a "name" key and a plain
`Transaction` otherwise, stamps the paginator's configured `kind` on the
result, and uses the empty string as the reason when the reason id is absent
from the reasons lookup table. -/
theorem C10_build_transaction (kind : String) (reasons : Int → Option String)
    (r : RawTransaction) (hwf : r.name.isSome → r.rank.isSome) :
    ∃ t, buildTransaction kind reasons r = some t ∧
      (t.isItem = true ↔ r.name.isSome = true) ∧
      t.kindOf = kind ∧
      (reasons r.reason = none → t.reasonOf = "") := by
  cases hn : r.name with
  | none =>
    refine ⟨.plain ⟨kind, r.id, r.uid, r.time, r.add_num, r.reason,
      (reasons r.reason).getD ("")⟩, ?_, ?_, rfl, ?_⟩
    · simp [buildTransaction, hn]
    · simp [TransRecord.isItem, hn]
    · intro hr
      simp [TransRecord.reasonOf, hr]
  | some nm =>
    obtain ⟨rk, hrk⟩ := Option.isSome_iff_exists.mp (hwf (by simp [hn]))
    refine ⟨.item ⟨⟨kind, r.id, r.uid, r.time, r.add_num, r.reason,
      (reasons r.reason).getD ("")⟩, nm, rk⟩, ?_, ?_, rfl, ?_⟩
    · simp [buildTransaction, hn, hrk]
    · simp [TransRecord.isItem, hn]
    · intro hr
      simp [TransRecord.reasonOf, hr]

/-- C10 witness: a plain record with a reason id missing from the table. -/
theorem C10_witness :
    ∃ t, buildTransaction ("primogem") (fun _ => none)
        ⟨1, 2, 3, 160, 7, none, none⟩ = some t ∧
      (TransRecord.isItem t = true ↔ (none : Option String).isSome = true) ∧
      TransRecord.kindOf t = "primogem" ∧
      ((none : Option String) = none → TransRecord.reasonOf t = "") :=
  C10_build_transaction ("primogem") (fun _ => none) ⟨1, 2, 3, 160, 7, none, none⟩
    (fun h => h)

end Genshin
